import Mathlib

/-!
# Verification of `check_unique_replicas.py`

A shallow embedding of the Rucio unique-replica checker.  Python dictionaries
are modelled as association lists with unique keys (`dget?` is `dict.get`,
`dsetAdd` is `dict[k] += v`, `dinsert` is `dict[k] = v`).  Network calls made
through the Rucio client are modelled by oracle values (`FilesResult`,
`ReplicasResult`) describing the outcome the catalog returns, with each
`except` branch of the source translated to the corresponding oracle case.
-/

set_option autoImplicit false

namespace CheckUniqueReplicas

universe u

/-- Python `d.get(k)` on a dictionary modelled as an association list:
the value at the first matching key, if any. -/
def dget? {α : Type u} : List (String × α) → String → Option α
  | [], _ => none
  | (k, v) :: rest, key => if k = key then some v else dget? rest key

/-- Python `d[k] += v` on a dictionary of integers: add to the value at the
first matching key, leave the dictionary unchanged when the key is absent
(the source only calls this under an `if key in self.stats` guard). -/
def dsetAdd : List (String × Int) → String → Int → List (String × Int)
  | [], _, _ => []
  | (k, v) :: rest, key, value =>
      if k = key then (k, v + value) :: rest else (k, v) :: dsetAdd rest key value

/-- Python `d[k] = v` on a dictionary: overwrite the first matching key in
place, or append a fresh entry at the end. -/
def dinsert {α : Type u} : List (String × α) → String → α → List (String × α)
  | [], k, v => [(k, v)]
  | (k', v') :: rest, k, v =>
      if k' = k then (k, v) :: rest else (k', v') :: dinsert rest k v

@[simp] theorem dget?_nil {α : Type u} (k : String) : dget? ([] : List (String × α)) k = none := rfl

theorem dget?_cons {α : Type u} (k' : String) (v : α) (rest : List (String × α)) (k : String) :
    dget? ((k', v) :: rest) k = if k' = k then some v else dget? rest k := rfl

theorem dsetAdd_of_isNone (s : List (String × Int)) (k : String) (v : Int)
    (h : (dget? s k).isNone) : dsetAdd s k v = s := by
  induction s with
  | nil => rfl
  | cons p rest ih =>
      obtain ⟨k', v'⟩ := p
      by_cases hk : k' = k
      · simp [dget?, hk] at h
      · simpa [dsetAdd, hk] using ih (by simpa [dget?, hk] using h)

theorem dget?_dsetAdd_self (s : List (String × Int)) (k : String) (v : Int) :
    dget? (dsetAdd s k v) k = (dget? s k).map (fun x => x + v) := by
  induction s with
  | nil => rfl
  | cons p rest ih =>
      obtain ⟨k', v'⟩ := p
      by_cases hk : k' = k
      · simp [dsetAdd, dget?, hk]
      · simp [dsetAdd, dget?, hk, ih]

theorem dget?_dsetAdd_ne (s : List (String × Int)) (k k' : String) (v : Int)
    (h : k ≠ k') : dget? (dsetAdd s k v) k' = dget? s k' := by
  induction s with
  | nil => rfl
  | cons p rest ih =>
      obtain ⟨k₀, v₀⟩ := p
      by_cases hk : k₀ = k
      · subst hk
        simp [dsetAdd, dget?, h]
      · simp [dsetAdd, dget?, hk, ih]

theorem dsetAdd_zero (s : List (String × Int)) (k : String) : dsetAdd s k 0 = s := by
  induction s with
  | nil => rfl
  | cons p rest ih =>
      obtain ⟨k', v'⟩ := p
      by_cases hk : k' = k <;> simp [dsetAdd, hk, ih]

theorem dsetAdd_dsetAdd (s : List (String × Int)) (k : String) (a b : Int) :
    dsetAdd (dsetAdd s k a) k b = dsetAdd s k (a + b) := by
  induction s with
  | nil => rfl
  | cons p rest ih =>
      obtain ⟨k', v'⟩ := p
      by_cases hk : k' = k <;> simp [dsetAdd, hk, ih, add_assoc]

theorem map_fst_dsetAdd (s : List (String × Int)) (k : String) (v : Int) :
    (dsetAdd s k v).map (fun p => p.1) = s.map (fun p => p.1) := by
  induction s with
  | nil => rfl
  | cons p rest ih =>
      obtain ⟨k', v'⟩ := p
      by_cases hk : k' = k <;> simp [dsetAdd, hk, ih]

theorem dget?_mem {α : Type u} (s : List (String × α)) (k : String) (v : α)
    (h : dget? s k = some v) : (k, v) ∈ s := by
  induction s with
  | nil => simp [dget?] at h
  | cons p rest ih =>
      obtain ⟨k', v'⟩ := p
      by_cases hk : k' = k
      · subst hk
        simp [dget?] at h
        simp [h]
      · simp [dget?, hk] at h
        exact List.mem_cons_of_mem _ (ih h)

theorem dget?_isSome_iff_mem_keys {α : Type u} (s : List (String × α)) (k : String) :
    (dget? s k).isSome ↔ k ∈ s.map (fun p => p.1) := by
  induction s with
  | nil => simp [dget?]
  | cons p rest ih =>
      obtain ⟨k', v'⟩ := p
      by_cases hk : k' = k
      · subst hk
        simp [dget?]
      · simp [dget?, hk, ih, Ne.symm hk]

/-! ## The replica record and the uniqueness evaluator -/

/-- A `{'scope': ..., 'name': ...}` data identifier, as produced by
`list_files` and consumed by `list_replicas`. -/
structure FileDid where
  scope : String
  name : String
deriving DecidableEq, Repr

/-- A replica record returned by `list_replicas`: scope, name, the `rses`
mapping (endpoint → list of physical file names) and the `states` mapping
(endpoint → replica state).  `rses` and `states` are `Option`s because the
source reads them with `replica_info.get(..., {})`: a record may lack either
key. -/
structure ReplicaInfo where
  scope : String
  name : String
  rses : Option (List (String × List String))
  states : Option (List (String × String))
deriving DecidableEq, Repr

/-- The method `UniqueReplicaChecker.is_unique_at_rse`, translated clause for clause:
missing `rses`/`states` default to `{}`; the file must be present at the
target RSE, its state there must be `AVAILABLE`, and the list of RSEs whose
state is `AVAILABLE` must be exactly the one-element list holding the
target. -/
def is_unique_at_rse (rse : String) (replica_info : ReplicaInfo) : Bool :=
  let rses := replica_info.rses.getD []
  let states := replica_info.states.getD []
  if (dget? rses rse).isNone then
    false
  else if dget? states rse ≠ some "AVAILABLE" then
    false
  else
    let available_rses := (states.filter (fun p => p.2 == "AVAILABLE")).map (fun p => p.1)
    available_rses.length == 1 && available_rses.head? == some rse

/-- The endpoints whose state in the record's `states` mapping equals
`AVAILABLE` (the `available_rses` list of the source). -/
def availableKeys (replica_info : ReplicaInfo) : List String :=
  ((replica_info.states.getD []).filter (fun p => p.2 == "AVAILABLE")).map (fun p => p.1)

example : is_unique_at_rse "X"
    ⟨"s", "f", some [("X", [])], some [("X", "AVAILABLE")]⟩ = true := by decide

example : is_unique_at_rse "X"
    ⟨"s", "f", some [("X", []), ("Y", [])],
      some [("X", "AVAILABLE"), ("Y", "AVAILABLE")]⟩ = false := by decide

example : is_unique_at_rse "X"
    ⟨"s", "f", some [("X", [])], some [("X", "COPYING")]⟩ = false := by decide

/-- Claim C1: `is_unique_at_rse` returns `true` if and only if the target
endpoint is present in the record's `rses` location mapping, its state in the
`states` mapping is `AVAILABLE`, and the set of endpoints whose state equals
`AVAILABLE` has exactly one member, namely the target endpoint.  The key-list
of `states` is assumed duplicate-free, as for every Python dictionary. -/
theorem claim_C1 (rse : String) (replica_info : ReplicaInfo)
    (hnodup : ((replica_info.states.getD []).map (fun p => p.1)).Nodup) :
    is_unique_at_rse rse replica_info = true ↔
      ((dget? (replica_info.rses.getD []) rse).isSome ∧
       dget? (replica_info.states.getD []) rse = some "AVAILABLE" ∧
       ∀ e, e ∈ availableKeys replica_info ↔ e = rse) := by
  unfold is_unique_at_rse availableKeys
  by_cases h1 : (dget? (replica_info.rses.getD []) rse).isNone
  · rw [Option.isNone_iff_eq_none] at h1
    simp [h1]
  · by_cases h2 : dget? (replica_info.states.getD []) rse = some "AVAILABLE"
    · have h1' : (dget? (replica_info.rses.getD []) rse).isSome := by
        cases ho : dget? (replica_info.rses.getD []) rse with
        | none => exact absurd (by simp [ho]) h1
        | some v => simp
      rw [if_neg h1, if_neg (by simp [h2])]
      set avail :=
        (((replica_info.states.getD []).filter (fun p => p.2 == "AVAILABLE")).map
          (fun p => p.1)) with havail
      have hmem : rse ∈ avail := by
        have hm : (rse, "AVAILABLE") ∈ replica_info.states.getD [] := dget?_mem _ _ _ h2
        rw [havail]
        exact List.mem_map_of_mem _ (List.mem_filter.mpr ⟨hm, by simp⟩)
      have hnd : avail.Nodup := by
        have hsub : avail.Sublist ((replica_info.states.getD []).map (fun p => p.1)) :=
          (List.filter_sublist _).map _
        exact hnodup.sublist hsub
      constructor
      · intro h
        refine ⟨h1', h2, ?_⟩
        simp only [Bool.and_eq_true, beq_iff_eq] at h
        obtain ⟨hlen, hhead⟩ := h
        obtain ⟨a, ha⟩ := List.length_eq_one.mp (by exact_mod_cast hlen)
        rw [ha] at hhead
        simp at hhead
        subst hhead
        rw [ha]
        intro e
        simp
      · rintro ⟨-, -, h⟩
        have : avail = [rse] := by
          cases havl : avail with
          | nil => rw [havl] at hmem; simp at hmem
          | cons a t =>
              cases ht : t with
              | nil =>
                  have : a = rse := (h a).mp (by rw [havl]; simp)
                  rw [this]
              | cons b t' =>
                  exfalso
                  rw [havl, ht] at hnd
                  have hb : b = rse := (h b).mp (by rw [havl, ht]; simp)
                  have ha : a = rse := (h a).mp (by rw [havl, ht]; simp)
                  rw [ha, hb] at hnd
                  simp at hnd
        rw [this]
        simp
    · rw [if_neg h1, if_pos h2]
      simp [h2]

/-- Claim C1 witness: a record available only at the target endpoint `X`
satisfies all three conditions and is judged unique. -/
theorem claim_C1_witness :
    ((([("X", "AVAILABLE")] : List (String × String)).map (fun p => p.1)).Nodup ∧
      (is_unique_at_rse "X" ⟨"s", "f", some [("X", [])], some [("X", "AVAILABLE")]⟩ = true ↔
        ((dget? ([("X", [])] : List (String × List String)) "X").isSome ∧
         dget? ([("X", "AVAILABLE")] : List (String × String)) "X" = some "AVAILABLE" ∧
         ∀ e, e ∈ availableKeys ⟨"s", "f", some [("X", [])], some [("X", "AVAILABLE")]⟩ ↔
          e = "X"))) :=
  ⟨by decide, claim_C1 "X" ⟨"s", "f", some [("X", [])], some [("X", "AVAILABLE")]⟩ (by decide)⟩

/-- Claim C9: for every replica record (all of which carry `scope` and `name`
fields by construction), `is_unique_at_rse` is total and returns `false`
whenever the `rses` or `states` mappings are missing or empty, or whenever
the target endpoint is absent from `states` while present in `rses`. -/
theorem claim_C9 (rse : String) (replica_info : ReplicaInfo)
    (h : replica_info.rses = none ∨ replica_info.rses = some [] ∨
         replica_info.states = none ∨ replica_info.states = some [] ∨
         ((dget? (replica_info.states.getD []) rse).isNone ∧
          (dget? (replica_info.rses.getD []) rse).isSome)) :
    is_unique_at_rse rse replica_info = false := by
  unfold is_unique_at_rse
  rcases h with h | h | h | h | ⟨hs, hr⟩
  · simp [h, dget?]
  · simp [h, dget?]
  · by_cases h1 : (dget? (replica_info.rses.getD []) rse).isNone
    · simp [h1]
    · rw [if_neg (by simpa using h1)]
      rw [if_pos (by simp [h, dget?])]
  · by_cases h1 : (dget? (replica_info.rses.getD []) rse).isNone
    · simp [h1]
    · rw [if_neg (by simpa using h1)]
      rw [if_pos (by simp [h, dget?])]
  · rw [Option.isNone_iff_eq_none] at hs
    rw [if_neg (by simp [Option.isNone_iff_eq_none, Option.isSome_iff_ne_none.mp hr])]
    rw [if_pos (by simp [hs])]

/-- Claim C9 witness: a record with both mappings missing evaluates to
`false` rather than failing. -/
theorem claim_C9_witness :
    ((⟨"s", "f", none, none⟩ : ReplicaInfo).rses = none ∨
      (⟨"s", "f", none, none⟩ : ReplicaInfo).rses = some [] ∨
      (⟨"s", "f", none, none⟩ : ReplicaInfo).states = none ∨
      (⟨"s", "f", none, none⟩ : ReplicaInfo).states = some [] ∨
      ((dget? ((⟨"s", "f", none, none⟩ : ReplicaInfo).states.getD []) "X").isNone ∧
       (dget? ((⟨"s", "f", none, none⟩ : ReplicaInfo).rses.getD []) "X").isSome)) ∧
    is_unique_at_rse "X" ⟨"s", "f", none, none⟩ = false :=
  ⟨Or.inl rfl, claim_C9 "X" ⟨"s", "f", none, none⟩ (Or.inl rfl)⟩

/-! ## The rate limiter constructor -/

/-- Python `threading.Semaphore(value)`: raises `ValueError` when the initial
value is negative, and accepts any non-negative value. -/
def semaphoreNew (value : Int) : Except String Int :=
  if value < 0 then Except.error "semaphore initial value must be non-negative"
  else Except.ok value

/-- The state built by `RateLimiter.__init__`.  Timestamps are modelled as
rationals. -/
structure RateLimiter where
  max_calls : Int
  time_window : Rat
  semaphore : Int
  call_times : List Rat
deriving DecidableEq, Repr

/-- The constructor `RateLimiter.__init__(max_calls, time_window)`: stores both parameters
unchecked, creates a `Semaphore(max_calls)` (the only step that can fail) and
an empty `call_times` list. -/
def rateLimiterNew (max_calls : Int) (time_window : Rat) : Except String RateLimiter :=
  match semaphoreNew max_calls with
  | Except.error e => Except.error e
  | Except.ok s => Except.ok ⟨max_calls, time_window, s, []⟩

/-- Claim C4 counterexample: constructing a rate limiter with
`max_calls = 0` (which satisfies N ≤ 0) and with `time_window = -1`
(T ≤ 0) both succeed, so an out-of-range configuration is not rejected at
construction. -/
theorem claim_C4_counterexample :
    (rateLimiterNew 0 1).isOk = true ∧ (rateLimiterNew 5 (-1)).isOk = true := by
  constructor <;> rfl

/-- Claim C4 (amended): construction of a `RateLimiter` fails if and only if
`max_calls` is negative — the internal `Semaphore` rejects a negative initial
value; `max_calls = 0` and any `time_window`, including `T ≤ 0`, are
accepted at construction. -/
theorem claim_C4 (max_calls : Int) (time_window : Rat) :
    (rateLimiterNew max_calls time_window).isOk = false ↔ max_calls < 0 := by
  unfold rateLimiterNew semaphoreNew
  by_cases h : max_calls < 0 <;> simp [h, Except.isOk, Except.toBool]

/-! ## The unique-file registry -/

/-- The insertion `self.unique_files[scope].append(name)` on the
`defaultdict(list)` registry: append the name to the scope's list, creating
the scope entry when absent. -/
def registry_append : List (String × List String) → String → String → List (String × List String)
  | [], scope, name => [(scope, [name])]
  | (s, ns) :: rest, scope, name =>
      if s = scope then (s, ns ++ [name]) :: rest
      else (s, ns) :: registry_append rest scope name

/-- The number of entries for the file `name` inside the scope `scope` of the
registry. -/
def countEntry (reg : List (String × List String)) (scope name : String) : Nat :=
  ((dget? reg scope).getD []).count name

/-- The total number of entries in the registry, duplicates included. -/
def registrySize (reg : List (String × List String)) : Nat :=
  (reg.map (fun p => p.2.length)).sum

/-- Claim C5 counterexample: inserting the same `(scope, name)` pair twice is
not idempotent — the registry ends with two entries for the pair, not one. -/
theorem claim_C5_counterexample :
    registry_append (registry_append [] "s" "n") "s" "n" ≠ registry_append [] "s" "n" ∧
    countEntry (registry_append (registry_append [] "s" "n") "s" "n") "s" "n" = 2 := by
  constructor <;> decide

/-- Claim C5 (amended): the per-scope registry is a list, not a set —
every insertion appends unconditionally, so each insertion of a
`(scope, name)` pair adds exactly one more entry for that pair, and the
registry holds duplicates exactly when the same pair is inserted twice. -/
theorem claim_C5 (reg : List (String × List String)) (scope name : String) :
    countEntry (registry_append reg scope name) scope name =
      countEntry reg scope name + 1 := by
  induction reg with
  | nil => simp [registry_append, countEntry, dget?]
  | cons p rest ih =>
      obtain ⟨s, ns⟩ := p
      by_cases hs : s = scope
      · subst hs
        simp [registry_append, countEntry, dget?]
      · simpa [registry_append, countEntry, dget?, hs] using ih

theorem registrySize_append (reg : List (String × List String)) (scope name : String) :
    registrySize (registry_append reg scope name) = registrySize reg + 1 := by
  induction reg with
  | nil => simp [registry_append, registrySize]
  | cons p rest ih =>
      obtain ⟨s, ns⟩ := p
      by_cases hs : s = scope
      · subst hs
        simp [registry_append, registrySize]
        omega
      · simp [registry_append, registrySize, hs] at ih ⊢
        omega

/-! ## Run statistics and `update_stats` -/

/-- The key set of the `self.stats` dictionary. -/
def statsKeys : List String :=
  ["datasets_found", "datasets_processed", "files_checked",
   "unique_files_found", "errors", "skipped"]

/-- The `self.stats` dictionary as initialized by the constructor. -/
def init_stats : List (String × Int) :=
  [("datasets_found", 0), ("datasets_processed", 0), ("files_checked", 0),
   ("unique_files_found", 0), ("errors", 0), ("skipped", 0)]

/-- The method `UniqueReplicaChecker.update_stats(**kwargs)`: for each keyword in order,
add its value to the matching counter when the key is present in
`self.stats`, and ignore it otherwise. -/
def update_stats (stats : List (String × Int)) (kwargs : List (String × Int)) :
    List (String × Int) :=
  kwargs.foldl
    (fun s kv => if (dget? s kv.1).isSome then dsetAdd s kv.1 kv.2 else s) stats

theorem update_stats_nil (stats : List (String × Int)) : update_stats stats [] = stats := rfl

theorem update_stats_cons (stats : List (String × Int)) (kv : String × Int)
    (rest : List (String × Int)) :
    update_stats stats (kv :: rest) = update_stats (dsetAdd stats kv.1 kv.2) rest := by
  unfold update_stats
  rw [List.foldl_cons]
  by_cases h : (dget? stats kv.1).isSome
  · rw [if_pos h]
  · have hnone : dget? stats kv.1 = none := by
      cases hd : dget? stats kv.1 with
      | none => rfl
      | some v => exact absurd (by simp [hd]) h
    rw [if_neg h, dsetAdd_of_isNone stats kv.1 kv.2 (by simp [hnone])]

theorem update_stats_single (stats : List (String × Int)) (k : String) (v : Int) :
    update_stats stats [(k, v)] = dsetAdd stats k v := update_stats_cons stats (k, v) []

theorem map_fst_update_stats (stats kwargs : List (String × Int)) :
    (update_stats stats kwargs).map (fun p => p.1) = stats.map (fun p => p.1) := by
  induction kwargs generalizing stats with
  | nil => rfl
  | cons kv rest ih => rw [update_stats_cons, ih, map_fst_dsetAdd]

theorem dget?_update_stats_not_mem (stats kwargs : List (String × Int)) (k : String)
    (h : k ∉ kwargs.map (fun p => p.1)) :
    dget? (update_stats stats kwargs) k = dget? stats k := by
  induction kwargs generalizing stats with
  | nil => rfl
  | cons kv rest ih =>
      simp only [List.map_cons, List.mem_cons] at h
      push_neg at h
      rw [update_stats_cons, ih _ h.2, dget?_dsetAdd_ne _ _ _ _ (fun hkk => h.1 hkk.symm)]

theorem dget?_update_stats_mem (stats kwargs : List (String × Int)) (k : String) (v : Int)
    (hnodup : (kwargs.map (fun p => p.1)).Nodup) (hmem : (k, v) ∈ kwargs) :
    dget? (update_stats stats kwargs) k = (dget? stats k).map (fun x => x + v) := by
  induction kwargs generalizing stats with
  | nil => simp at hmem
  | cons kv rest ih =>
      simp only [List.map_cons, List.nodup_cons] at hnodup
      rw [update_stats_cons]
      rcases List.mem_cons.mp hmem with heq | hrest
      · subst heq
        have hnot : k ∉ rest.map (fun p => p.1) := hnodup.1
        rw [dget?_update_stats_not_mem _ _ _ hnot, dget?_dsetAdd_self]
      · have hne : kv.1 ≠ k := by
          intro hkk
          exact hnodup.1 (hkk ▸ List.mem_map_of_mem (fun p => p.1) hrest)
        rw [ih _ hnodup.2 hrest, dget?_dsetAdd_ne _ _ _ _ hne]

/-- Claim C8: `update_stats` changes exactly the counters named by its
keyword arguments — each present counter moves by exactly its given delta,
absent keys read back unchanged, and keywords outside the fixed
six-counter key set are silently ignored (dropping them from the call gives
the same result), with the function total so no error is raised. -/
theorem claim_C8 (stats kwargs : List (String × Int))
    (hkeys : stats.map (fun p => p.1) = statsKeys)
    (hnodup : (kwargs.map (fun p => p.1)).Nodup) :
    (∀ k v, (k, v) ∈ kwargs →
        dget? (update_stats stats kwargs) k = (dget? stats k).map (fun x => x + v)) ∧
    (∀ k, k ∉ kwargs.map (fun p => p.1) →
        dget? (update_stats stats kwargs) k = dget? stats k) ∧
    update_stats stats kwargs =
      update_stats stats (kwargs.filter (fun kv => statsKeys.contains kv.1)) := by
  refine ⟨fun k v hmem => dget?_update_stats_mem stats kwargs k v hnodup hmem,
          fun k h => dget?_update_stats_not_mem stats kwargs k h, ?_⟩
  clear hnodup
  induction kwargs generalizing stats with
  | nil => rfl
  | cons kv rest ih =>
      by_cases hk : statsKeys.contains kv.1
      · simp only [List.filter_cons]
        rw [if_pos hk, update_stats_cons, update_stats_cons]
        exact ih _ (by rw [map_fst_dsetAdd, hkeys])
      · simp only [List.filter_cons]
        rw [if_neg hk, update_stats_cons]
        have hnone : dget? stats kv.1 = none := by
          cases hd : dget? stats kv.1 with
          | none => rfl
          | some v =>
              exfalso
              apply hk
              have : kv.1 ∈ stats.map (fun p => p.1) :=
                (dget?_isSome_iff_mem_keys stats kv.1).mp (by simp [hd])
              rw [hkeys] at this
              simpa [List.contains_iff_exists_mem_beq] using this
        rw [dsetAdd_of_isNone _ _ _ (by simp [hnone])]
        exact ih _ hkeys

/-- Claim C8 witness: updating `files_checked` by 3 together with an unknown
keyword `bogus` changes only `files_checked`, leaves every other counter in
place, and equals the call with the unknown keyword dropped. -/
theorem claim_C8_witness :
    (init_stats.map (fun p => p.1) = statsKeys ∧
      (([("files_checked", 3), ("bogus", 7)] : List (String × Int)).map
        (fun p => p.1)).Nodup) ∧
    ((∀ k v, (k, v) ∈ ([("files_checked", 3), ("bogus", 7)] : List (String × Int)) →
        dget? (update_stats init_stats [("files_checked", 3), ("bogus", 7)]) k =
          (dget? init_stats k).map (fun x => x + v)) ∧
     (∀ k, k ∉ (([("files_checked", 3), ("bogus", 7)] : List (String × Int)).map
          (fun p => p.1)) →
        dget? (update_stats init_stats [("files_checked", 3), ("bogus", 7)]) k =
          dget? init_stats k) ∧
     update_stats init_stats [("files_checked", 3), ("bogus", 7)] =
       update_stats init_stats
         (([("files_checked", 3), ("bogus", 7)] : List (String × Int)).filter
           (fun kv => statsKeys.contains kv.1))) :=
  ⟨⟨by decide, by decide⟩,
    claim_C8 init_stats [("files_checked", 3), ("bogus", 7)] (by decide) (by decide)⟩

/-! ## Dataset processing

The two catalog calls made while processing one dataset are modelled by
oracle values: `FilesResult` is the outcome of `client.list_files` (one case
per `except` branch of `get_files_in_dataset`), and `ReplicasResult`,
indexed by batch number, is the outcome of `client.list_replicas` for that
batch (one case per `except` branch of `check_replica_locations`). -/

/-- Outcome of `client.list_files` for one dataset. -/
inductive FilesResult where
  | ok (files : List FileDid)
  | datasetNotFound
  | rucioError
  | otherError
deriving DecidableEq, Repr

/-- Outcome of `client.list_replicas` for one batch. -/
inductive ReplicasResult where
  | ok (replicas : List ReplicaInfo)
  | rucioError
  | otherError
deriving DecidableEq, Repr

/-- The shared mutable state of the checker: the `self.stats` dictionary and
the `self.unique_files` registry. -/
structure CheckerState where
  stats : List (String × Int)
  unique_files : List (String × List String)
deriving DecidableEq, Repr

/-- The `f"{scope}:{name}"` key of a file. -/
def fileKey (f : FileDid) : String := f.scope ++ ":" ++ f.name

/-- The `f"{replica['scope']}:{replica['name']}"` key of a replica record. -/
def replicaKey (r : ReplicaInfo) : String := r.scope ++ ":" ++ r.name

/-- The `replica_dict` built by `check_replica_locations` from the replica
generator: later records overwrite earlier ones with the same key, as for a
Python dictionary. -/
def buildReplicaDict (rs : List ReplicaInfo) : List (String × ReplicaInfo) :=
  rs.foldl (fun d r => dinsert d (replicaKey r) r) []

/-- The method `UniqueReplicaChecker.get_files_in_dataset`: returns the file list on
success; on `DataIdentifierNotFound`, `RucioException` or any other
exception it logs, increments `errors` by one and returns `[]`. -/
def get_files_in_dataset (res : FilesResult) (stats : List (String × Int)) :
    List FileDid × List (String × Int) :=
  match res with
  | FilesResult.ok files => (files, stats)
  | FilesResult.datasetNotFound => ([], update_stats stats [("errors", 1)])
  | FilesResult.rucioError => ([], update_stats stats [("errors", 1)])
  | FilesResult.otherError => ([], update_stats stats [("errors", 1)])

/-- The method `UniqueReplicaChecker.check_replica_locations`: empty input returns an empty dictionary
before any call; on success the replica dictionary is built; on
`RucioException` or any other exception `errors` is incremented by
`len(dids)` and `{}` is returned. -/
def check_replica_locations (dids : List FileDid) (res : ReplicasResult)
    (stats : List (String × Int)) :
    List (String × ReplicaInfo) × List (String × Int) :=
  if dids.isEmpty then ([], stats)
  else
    match res with
    | ReplicasResult.ok replicas => (buildReplicaDict replicas, stats)
    | ReplicasResult.rucioError =>
        ([], update_stats stats [("errors", (dids.length : Int))])
    | ReplicasResult.otherError =>
        ([], update_stats stats [("errors", (dids.length : Int))])

/-- The body of the per-file loop of `process_dataset`: skip the file when no
replica record was returned for it, otherwise count it as checked and, when
unique, append it to the registry and count it as unique.  The accumulator
carries the local `files_checked` and `unique_files_found` counters and the
registry. -/
def process_file (rse : String) (replicas : List (String × ReplicaInfo))
    (acc : Nat × Nat × List (String × List String)) (file_info : FileDid) :
    Nat × Nat × List (String × List String) :=
  match dget? replicas (fileKey file_info) with
  | none => acc
  | some ri =>
      if is_unique_at_rse rse ri then
        (acc.1 + 1, acc.2.1 + 1, registry_append acc.2.2 file_info.scope file_info.name)
      else
        (acc.1 + 1, acc.2.1, acc.2.2)

/-- The per-batch loop of `process_dataset`, starting at batch index `i`:
build the DIDs of the batch, query the replica locations, then run the
per-file loop; the accumulator carries the two local counters and the shared
state. -/
def process_batches (rse : String) (o : Nat → ReplicasResult) :
    Nat → List (List FileDid) → Nat × Nat × CheckerState → Nat × Nat × CheckerState
  | _, [], acc => acc
  | i, batch :: rest, acc =>
      let dids := batch.map (fun f => ({ scope := f.scope, name := f.name } : FileDid))
      let res := check_replica_locations dids (o i) acc.2.2.stats
      let inner := batch.foldl (process_file rse res.1) (acc.1, acc.2.1, acc.2.2.unique_files)
      process_batches rse o (i + 1) rest (inner.1, inner.2.1, ⟨res.2, inner.2.2⟩)

/-- The slicing `files[i:i+n]` driven by `range(0, len(files), n)`: the list cut
into chunks of size `n`.  The recursion is bounded by the fuel argument,
which `chunksOf` instantiates with the length of the list (each step of the
Python loop consumes at least one element when `n ≥ 1`). -/
def chunksGo {α : Type u} (n : Nat) : Nat → List α → List (List α)
  | 0, _ => []
  | _ + 1, [] => []
  | fuel + 1, x :: xs => (x :: xs).take n :: chunksGo n fuel ((x :: xs).drop n)

/-- The batches `files[0:n], files[n:2n], ...` of the batching loop. -/
def chunksOf {α : Type u} (n : Nat) (l : List α) : List (List α) :=
  chunksGo n l.length l

/-- The method `UniqueReplicaChecker.process_dataset`: fetch the file list, return
`(0, 0)` with one `skipped` event when it is empty, otherwise process the
file list in batches of 100 and record the totals, incrementing
`datasets_processed`. -/
def process_dataset (rse : String) (filesRes : FilesResult) (o : Nat → ReplicasResult)
    (st : CheckerState) : (Nat × Nat) × CheckerState :=
  let fr := get_files_in_dataset filesRes st.stats
  if fr.1.isEmpty then
    ((0, 0), ⟨update_stats fr.2 [("skipped", 1)], st.unique_files⟩)
  else
    let r := process_batches rse o 0 (chunksOf 100 fr.1) (0, 0, ⟨fr.2, st.unique_files⟩)
    ((r.1, r.2.1),
     ⟨update_stats r.2.2.stats
        [("datasets_processed", 1), ("files_checked", (r.1 : Int)),
         ("unique_files_found", (r.2.1 : Int))],
      r.2.2.unique_files⟩)

/-- A sequential run over a list of datasets, each given by its pair of
catalog oracles. -/
def run_datasets (rse : String) (jobs : List (FilesResult × (Nat → ReplicasResult)))
    (st : CheckerState) : CheckerState :=
  jobs.foldl (fun s job => (process_dataset rse job.1 job.2 s).2) st

/-! ### Per-batch characterization -/

/-- The replica dictionary a batch sees: the built dictionary on success,
empty on failure. -/
def batchReplicaDict (res : ReplicasResult) : List (String × ReplicaInfo) :=
  match res with
  | ReplicasResult.ok rs => buildReplicaDict rs
  | _ => []

/-- How many files of a batch have a replica record in the dictionary. -/
def checkedInBatch (replicas : List (String × ReplicaInfo)) (batch : List FileDid) : Nat :=
  batch.countP (fun f => (dget? replicas (fileKey f)).isSome)

/-- The files of a batch whose replica record is present and judged unique,
in batch order. -/
def uniqueInBatch (rse : String) (replicas : List (String × ReplicaInfo))
    (batch : List FileDid) : List FileDid :=
  batch.filter
    (fun f => ((dget? replicas (fileKey f)).map (is_unique_at_rse rse)).getD false)

/-- Files counted as checked in one batch, given its oracle outcome. -/
def batchChecked (res : ReplicasResult) (batch : List FileDid) : Nat :=
  checkedInBatch (batchReplicaDict res) batch

/-- Files found unique in one batch, given its oracle outcome. -/
def batchUniqueFiles (rse : String) (res : ReplicasResult) (batch : List FileDid) :
    List FileDid :=
  uniqueInBatch rse (batchReplicaDict res) batch

/-- Errors contributed by one batch: `len(dids)` on failure, zero on
success. -/
def batchErrors (res : ReplicasResult) (batch : List FileDid) : Nat :=
  match res with
  | ReplicasResult.ok _ => 0
  | _ => batch.length

/-- Total checked-file count over the batches starting at index `i`. -/
def totalChecked (o : Nat → ReplicasResult) : Nat → List (List FileDid) → Nat
  | _, [] => 0
  | i, b :: bs => batchChecked (o i) b + totalChecked o (i + 1) bs

/-- All files found unique over the batches starting at index `i`. -/
def allUniqueFiles (rse : String) (o : Nat → ReplicasResult) :
    Nat → List (List FileDid) → List FileDid
  | _, [] => []
  | i, b :: bs => batchUniqueFiles rse (o i) b ++ allUniqueFiles rse o (i + 1) bs

/-- Total error count over the batches starting at index `i`. -/
def totalErrors (o : Nat → ReplicasResult) : Nat → List (List FileDid) → Nat
  | _, [] => 0
  | i, b :: bs => batchErrors (o i) b + totalErrors o (i + 1) bs

/-- Append a list of unique files to the registry, in order. -/
def appendFiles (reg : List (String × List String)) (fs : List FileDid) :
    List (String × List String) :=
  fs.foldl (fun r f => registry_append r f.scope f.name) reg

/-- The file list a dataset yields, by oracle outcome. -/
def datasetFiles : FilesResult → List FileDid
  | FilesResult.ok fs => fs
  | _ => []

/-- All files of a dataset whose replica record was returned and judged
unique at the target RSE — exactly the files the source appends to the
registry. -/
def datasetUniqueFiles (rse : String) (filesRes : FilesResult)
    (o : Nat → ReplicasResult) : List FileDid :=
  allUniqueFiles rse o 0 (chunksOf 100 (datasetFiles filesRes))

theorem appendFiles_nil (reg : List (String × List String)) : appendFiles reg [] = reg := rfl

theorem appendFiles_cons (reg : List (String × List String)) (f : FileDid) (fs : List FileDid) :
    appendFiles reg (f :: fs) = appendFiles (registry_append reg f.scope f.name) fs := rfl

theorem appendFiles_append (reg : List (String × List String)) (a b : List FileDid) :
    appendFiles reg (a ++ b) = appendFiles (appendFiles reg a) b := by
  unfold appendFiles
  exact List.foldl_append _ _ _ _

theorem registrySize_appendFiles (reg : List (String × List String)) (fs : List FileDid) :
    registrySize (appendFiles reg fs) = registrySize reg + fs.length := by
  induction fs generalizing reg with
  | nil => simp [appendFiles_nil]
  | cons f fs ih =>
      rw [appendFiles_cons, ih, registrySize_append]
      simp
      omega

theorem didsOf_eq (b : List FileDid) :
    b.map (fun f => ({ scope := f.scope, name := f.name } : FileDid)) = b := by
  induction b with
  | nil => rfl
  | cons f fs ih => simp [ih]

theorem checkedInBatch_nil_dict (batch : List FileDid) : checkedInBatch [] batch = 0 := by
  unfold checkedInBatch
  exact List.countP_eq_zero.mpr (fun f _ => by simp [dget?])

theorem uniqueInBatch_nil_dict (rse : String) (batch : List FileDid) :
    uniqueInBatch rse [] batch = [] := by
  unfold uniqueInBatch
  exact List.filter_eq_nil_iff.mpr (fun f _ => by simp [dget?])

theorem batchErrors_nil (res : ReplicasResult) : batchErrors res [] = 0 := by
  cases res <;> rfl

/-- The per-file loop computes, over any batch, the checked count, the list
of unique files and the registry appends. -/
theorem foldl_process_file (rse : String) (replicas : List (String × ReplicaInfo))
    (batch : List FileDid) :
    ∀ (c u : Nat) (reg : List (String × List String)),
    batch.foldl (process_file rse replicas) (c, u, reg) =
      (c + checkedInBatch replicas batch,
       u + (uniqueInBatch rse replicas batch).length,
       appendFiles reg (uniqueInBatch rse replicas batch)) := by
  induction batch with
  | nil =>
      intro c u reg
      simp [checkedInBatch, uniqueInBatch, appendFiles_nil]
  | cons f fs ih =>
      intro c u reg
      rw [List.foldl_cons]
      cases hd : dget? replicas (fileKey f) with
      | none =>
          have hstep : process_file rse replicas (c, u, reg) f = (c, u, reg) := by
            simp [process_file, hd]
          have h1 : checkedInBatch replicas (f :: fs) = checkedInBatch replicas fs := by
            simp [checkedInBatch, List.countP_cons, hd]
          have h2 : uniqueInBatch rse replicas (f :: fs) = uniqueInBatch rse replicas fs := by
            simp [uniqueInBatch, List.filter_cons, hd]
          rw [hstep, ih, h1, h2]
      | some ri =>
          by_cases hu : is_unique_at_rse rse ri = true
          · have hstep : process_file rse replicas (c, u, reg) f =
                (c + 1, u + 1, registry_append reg f.scope f.name) := by
              simp [process_file, hd, hu]
            have h1 : checkedInBatch replicas (f :: fs) = checkedInBatch replicas fs + 1 := by
              simp [checkedInBatch, List.countP_cons, hd]
            have h2 : uniqueInBatch rse replicas (f :: fs) =
                f :: uniqueInBatch rse replicas fs := by
              simp [uniqueInBatch, List.filter_cons, hd, hu]
            rw [hstep, ih, h1, h2, appendFiles_cons, List.length_cons]
            have e1 : c + (checkedInBatch replicas fs + 1) =
                c + 1 + checkedInBatch replicas fs := by omega
            have e2 : u + ((uniqueInBatch rse replicas fs).length + 1) =
                u + 1 + (uniqueInBatch rse replicas fs).length := by omega
            rw [e1, e2]
          · have hstep : process_file rse replicas (c, u, reg) f = (c + 1, u, reg) := by
              simp [process_file, hd, hu]
            have h1 : checkedInBatch replicas (f :: fs) = checkedInBatch replicas fs + 1 := by
              simp [checkedInBatch, List.countP_cons, hd]
            have h2 : uniqueInBatch rse replicas (f :: fs) = uniqueInBatch rse replicas fs := by
              simp [uniqueInBatch, List.filter_cons, hd, hu]
            rw [hstep, ih, h1, h2]
            have e1 : c + (checkedInBatch replicas fs + 1) =
                c + 1 + checkedInBatch replicas fs := by omega
            rw [e1]

/-- Master characterization of the batch loop: starting from any local
counters and shared state, the loop adds the per-batch checked counts, the
concatenated unique-file lists, the per-batch error counts, and the registry
appends of the unique files, in order. -/
theorem process_batches_eq (rse : String) (o : Nat → ReplicasResult)
    (bs : List (List FileDid)) :
    ∀ (i : Nat) (c u : Nat) (stats : List (String × Int))
      (reg : List (String × List String)),
    process_batches rse o i bs (c, u, ⟨stats, reg⟩) =
      (c + totalChecked o i bs,
       u + (allUniqueFiles rse o i bs).length,
       ⟨dsetAdd stats "errors" ((totalErrors o i bs : Nat) : Int),
        appendFiles reg (allUniqueFiles rse o i bs)⟩) := by
  induction bs with
  | nil =>
      intro i c u stats reg
      simp [process_batches, totalChecked, allUniqueFiles, totalErrors, dsetAdd_zero,
        appendFiles_nil]
  | cons b rest ih =>
      intro i c u stats reg
      simp only [process_batches, didsOf_eq]
      have hTC : totalChecked o i (b :: rest) =
          batchChecked (o i) b + totalChecked o (i + 1) rest := rfl
      have hAU : allUniqueFiles rse o i (b :: rest) =
          batchUniqueFiles rse (o i) b ++ allUniqueFiles rse o (i + 1) rest := rfl
      have hTE : totalErrors o i (b :: rest) =
          batchErrors (o i) b + totalErrors o (i + 1) rest := rfl
      cases hb : b with
      | nil =>
          have hcrl : check_replica_locations ([] : List FileDid) (o i) stats =
              ([], stats) := rfl
          simp only [hcrl, List.foldl_nil]
          rw [ih]
          have h1 : batchChecked (o i) [] = 0 := by
            simp [batchChecked, checkedInBatch]
          have h2 : batchUniqueFiles rse (o i) [] = [] := by
            simp [batchUniqueFiles, uniqueInBatch]
          have hTC0 : totalChecked o i ([] :: rest) = totalChecked o (i + 1) rest := by
            show batchChecked (o i) [] + totalChecked o (i + 1) rest =
              totalChecked o (i + 1) rest
            rw [h1]
            omega
          have hAU0 : allUniqueFiles rse o i ([] :: rest) =
              allUniqueFiles rse o (i + 1) rest := by
            show batchUniqueFiles rse (o i) [] ++ allUniqueFiles rse o (i + 1) rest =
              allUniqueFiles rse o (i + 1) rest
            rw [h2]
            rfl
          have hTE0 : totalErrors o i ([] :: rest) = totalErrors o (i + 1) rest := by
            show batchErrors (o i) [] + totalErrors o (i + 1) rest =
              totalErrors o (i + 1) rest
            rw [batchErrors_nil]
            omega
          rw [hTC0, hAU0, hTE0]
      | cons f fs =>
          rw [← hb]
          have hbne : b.isEmpty = false := by rw [hb]; rfl
          cases hoi : o i with
          | ok rs =>
              simp only [check_replica_locations, hbne, Bool.false_eq_true, if_false]
              rw [foldl_process_file, ih, hTC, hAU, hTE, hoi]
              have hD : batchChecked (ReplicasResult.ok rs) b =
                  checkedInBatch (buildReplicaDict rs) b := rfl
              have hU : batchUniqueFiles rse (ReplicasResult.ok rs) b =
                  uniqueInBatch rse (buildReplicaDict rs) b := rfl
              have hE : batchErrors (ReplicasResult.ok rs) b = 0 := rfl
              rw [hD, hU, hE]
              simp only [List.length_append, appendFiles_append, Nat.zero_add,
                Nat.add_assoc]
          | rucioError =>
              simp only [check_replica_locations, hbne, Bool.false_eq_true, if_false]
              rw [update_stats_single, foldl_process_file, ih, hTC, hAU, hTE, hoi]
              have hD : batchChecked ReplicasResult.rucioError b =
                  checkedInBatch [] b := rfl
              have hU : batchUniqueFiles rse ReplicasResult.rucioError b =
                  uniqueInBatch rse [] b := rfl
              have hE : batchErrors ReplicasResult.rucioError b = b.length := rfl
              rw [hD, hU, hE, checkedInBatch_nil_dict, uniqueInBatch_nil_dict,
                appendFiles_nil, dsetAdd_dsetAdd]
              simp only [List.nil_append, List.length_nil, List.length_append,
                Nat.add_zero, Nat.zero_add, Nat.add_assoc]
              have hcast : ((b.length : Int)) + ((totalErrors o (i + 1) rest : Nat) : Int) =
                  (((b.length + totalErrors o (i + 1) rest : Nat)) : Int) := by
                push_cast
                ring
              rw [hcast]
          | otherError =>
              simp only [check_replica_locations, hbne, Bool.false_eq_true, if_false]
              rw [update_stats_single, foldl_process_file, ih, hTC, hAU, hTE, hoi]
              have hD : batchChecked ReplicasResult.otherError b =
                  checkedInBatch [] b := rfl
              have hU : batchUniqueFiles rse ReplicasResult.otherError b =
                  uniqueInBatch rse [] b := rfl
              have hE : batchErrors ReplicasResult.otherError b = b.length := rfl
              rw [hD, hU, hE, checkedInBatch_nil_dict, uniqueInBatch_nil_dict,
                appendFiles_nil, dsetAdd_dsetAdd]
              simp only [List.nil_append, List.length_nil, List.length_append,
                Nat.add_zero, Nat.zero_add, Nat.add_assoc]
              have hcast : ((b.length : Int)) + ((totalErrors o (i + 1) rest : Nat) : Int) =
                  (((b.length + totalErrors o (i + 1) rest : Nat)) : Int) := by
                push_cast
                ring
              rw [hcast]

theorem chunksGo_join {α : Type u} (n : Nat) (hn : 0 < n) :
    ∀ (fuel : Nat) (l : List α), l.length ≤ fuel → (chunksGo n fuel l).flatten = l := by
  intro fuel
  induction fuel with
  | zero =>
      intro l hl
      cases l with
      | nil => rfl
      | cons x xs => simp at hl
  | succ fuel ih =>
      intro l hl
      cases l with
      | nil => rfl
      | cons x xs =>
          show ((x :: xs).take n :: chunksGo n fuel ((x :: xs).drop n)).flatten = x :: xs
          have hlen : ((x :: xs).drop n).length ≤ fuel := by
            rw [List.length_drop]
            simp only [List.length_cons] at hl ⊢
            omega
          rw [List.flatten_cons, ih _ hlen, List.take_append_drop]

theorem join_chunksOf {α : Type u} (n : Nat) (hn : 0 < n) (l : List α) :
    (chunksOf n l).flatten = l :=
  chunksGo_join n hn l.length l (Nat.le_refl _)

theorem totalChecked_le_sum (o : Nat → ReplicasResult) :
    ∀ (bs : List (List FileDid)) (i : Nat),
    totalChecked o i bs ≤ (bs.map List.length).sum := by
  intro bs
  induction bs with
  | nil => intro i; exact Nat.le_refl 0
  | cons b rest ih =>
      intro i
      show batchChecked (o i) b + totalChecked o (i + 1) rest ≤ _
      have h1 : batchChecked (o i) b ≤ b.length := by
        unfold batchChecked checkedInBatch
        exact List.countP_le_length _
      have h2 := ih (i + 1)
      simp only [List.map_cons, List.sum_cons]
      omega

theorem length_uniqueInBatch_le (rse : String) (replicas : List (String × ReplicaInfo))
    (batch : List FileDid) :
    (uniqueInBatch rse replicas batch).length ≤ checkedInBatch replicas batch := by
  induction batch with
  | nil => simp [uniqueInBatch, checkedInBatch]
  | cons f fs ih =>
      cases hd : dget? replicas (fileKey f) with
      | none =>
          have h1 : checkedInBatch replicas (f :: fs) = checkedInBatch replicas fs := by
            simp [checkedInBatch, List.countP_cons, hd]
          have h2 : uniqueInBatch rse replicas (f :: fs) = uniqueInBatch rse replicas fs := by
            simp [uniqueInBatch, List.filter_cons, hd]
          rw [h1, h2]
          exact ih
      | some ri =>
          have h1 : checkedInBatch replicas (f :: fs) = checkedInBatch replicas fs + 1 := by
            simp [checkedInBatch, List.countP_cons, hd]
          by_cases hu : is_unique_at_rse rse ri = true
          · have h2 : uniqueInBatch rse replicas (f :: fs) =
                f :: uniqueInBatch rse replicas fs := by
              simp [uniqueInBatch, List.filter_cons, hd, hu]
            rw [h1, h2, List.length_cons]
            omega
          · have h2 : uniqueInBatch rse replicas (f :: fs) = uniqueInBatch rse replicas fs := by
              simp [uniqueInBatch, List.filter_cons, hd, hu]
            rw [h1, h2]
            omega

theorem length_allUniqueFiles_le (rse : String) (o : Nat → ReplicasResult) :
    ∀ (bs : List (List FileDid)) (i : Nat),
    (allUniqueFiles rse o i bs).length ≤ totalChecked o i bs := by
  intro bs
  induction bs with
  | nil => intro i; exact Nat.le_refl 0
  | cons b rest ih =>
      intro i
      show (batchUniqueFiles rse (o i) b ++ allUniqueFiles rse o (i + 1) rest).length ≤
        batchChecked (o i) b + totalChecked o (i + 1) rest
      rw [List.length_append]
      have h1 := length_uniqueInBatch_le rse (batchReplicaDict (o i)) b
      have h2 := ih (i + 1)
      unfold batchUniqueFiles at *
      unfold batchChecked at *
      omega

/-- The non-empty path of `process_dataset`, fully characterized:
the returned pair is the per-batch totals, the registry gets the unique
files appended, and the statistics get the error total plus the three final
counter updates. -/
theorem process_dataset_nonempty (rse : String) (files : List FileDid)
    (o : Nat → ReplicasResult) (st : CheckerState) (hne : files ≠ []) :
    process_dataset rse (FilesResult.ok files) o st =
      ((totalChecked o 0 (chunksOf 100 files),
        (allUniqueFiles rse o 0 (chunksOf 100 files)).length),
       ⟨update_stats
          (dsetAdd st.stats "errors" ((totalErrors o 0 (chunksOf 100 files) : Nat) : Int))
          [("datasets_processed", 1),
           ("files_checked", ((totalChecked o 0 (chunksOf 100 files) : Nat) : Int)),
           ("unique_files_found",
            (((allUniqueFiles rse o 0 (chunksOf 100 files)).length : Nat) : Int))],
        appendFiles st.unique_files (allUniqueFiles rse o 0 (chunksOf 100 files))⟩) := by
  have hemp : files.isEmpty = false := by
    cases files with
    | nil => exact absurd rfl hne
    | cons a l => rfl
  unfold process_dataset
  simp only [get_files_in_dataset, hemp, Bool.false_eq_true, if_false]
  rw [process_batches_eq]
  simp only [Nat.zero_add]

/-- The empty-file-list path of `process_dataset`. -/
theorem process_dataset_empty (rse : String) (o : Nat → ReplicasResult) (st : CheckerState) :
    process_dataset rse (FilesResult.ok []) o st =
      ((0, 0), ⟨update_stats st.stats [("skipped", 1)], st.unique_files⟩) := rfl

/-- The `DataIdentifierNotFound` path of `process_dataset`: one error from
`get_files_in_dataset`, then the empty-list skip. -/
theorem process_dataset_notFound (rse : String) (o : Nat → ReplicasResult) (st : CheckerState) :
    process_dataset rse FilesResult.datasetNotFound o st =
      ((0, 0),
       ⟨update_stats (update_stats st.stats [("errors", 1)]) [("skipped", 1)],
        st.unique_files⟩) := rfl

theorem final_stats_eq (stats : List (String × Int)) (te c u : Int) :
    update_stats (dsetAdd stats "errors" te)
      [("datasets_processed", 1), ("files_checked", c), ("unique_files_found", u)] =
    dsetAdd (dsetAdd (dsetAdd (dsetAdd stats "errors" te) "datasets_processed" 1)
      "files_checked" c) "unique_files_found" u := by
  rw [update_stats_cons, update_stats_cons, update_stats_cons, update_stats_nil]

theorem map_add_zero_int (x : Option Int) : x.map (fun v => v + ((0 : Nat) : Int)) = x := by
  cases x <;> simp

/-- One-dataset characterization of the registry and the
`unique_files_found` counter: the appended files are exactly
`datasetUniqueFiles`, the returned unique count is their number, and the
counter moves by exactly that amount. -/
theorem process_dataset_unique_spec (rse : String) (filesRes : FilesResult)
    (o : Nat → ReplicasResult) (st : CheckerState) :
    (process_dataset rse filesRes o st).2.unique_files =
      appendFiles st.unique_files (datasetUniqueFiles rse filesRes o) ∧
    (process_dataset rse filesRes o st).1.2 = (datasetUniqueFiles rse filesRes o).length ∧
    dget? (process_dataset rse filesRes o st).2.stats "unique_files_found" =
      (dget? st.stats "unique_files_found").map
        (fun x => x + ((datasetUniqueFiles rse filesRes o).length : Int)) := by
  cases filesRes with
  | ok files =>
      cases hfe : files with
      | nil =>
          rw [process_dataset_empty]
          have hd : datasetUniqueFiles rse (FilesResult.ok []) o = [] := rfl
          rw [hd, appendFiles_nil]
          refine ⟨rfl, rfl, ?_⟩
          rw [update_stats_single, dget?_dsetAdd_ne _ _ _ _ (by decide), List.length_nil,
            map_add_zero_int]
      | cons f fs =>
          rw [← hfe]
          have hne : files ≠ [] := by rw [hfe]; exact List.cons_ne_nil f fs
          rw [process_dataset_nonempty rse files o st hne]
          have hd : datasetUniqueFiles rse (FilesResult.ok files) o =
              allUniqueFiles rse o 0 (chunksOf 100 files) := rfl
          rw [hd]
          refine ⟨rfl, rfl, ?_⟩
          rw [final_stats_eq, dget?_dsetAdd_self, dget?_dsetAdd_ne _ _ _ _ (by decide),
            dget?_dsetAdd_ne _ _ _ _ (by decide), dget?_dsetAdd_ne _ _ _ _ (by decide)]
  | datasetNotFound =>
      rw [process_dataset_notFound]
      have hd : datasetUniqueFiles rse FilesResult.datasetNotFound o = [] := rfl
      rw [hd, appendFiles_nil]
      refine ⟨rfl, rfl, ?_⟩
      rw [update_stats_single, update_stats_single, dget?_dsetAdd_ne _ _ _ _ (by decide),
        dget?_dsetAdd_ne _ _ _ _ (by decide), List.length_nil, map_add_zero_int]
  | rucioError =>
      have hstep : process_dataset rse FilesResult.rucioError o st =
          ((0, 0),
           ⟨update_stats (update_stats st.stats [("errors", 1)]) [("skipped", 1)],
            st.unique_files⟩) := rfl
      rw [hstep]
      have hd : datasetUniqueFiles rse FilesResult.rucioError o = [] := rfl
      rw [hd, appendFiles_nil]
      refine ⟨rfl, rfl, ?_⟩
      rw [update_stats_single, update_stats_single, dget?_dsetAdd_ne _ _ _ _ (by decide),
        dget?_dsetAdd_ne _ _ _ _ (by decide), List.length_nil, map_add_zero_int]
  | otherError =>
      have hstep : process_dataset rse FilesResult.otherError o st =
          ((0, 0),
           ⟨update_stats (update_stats st.stats [("errors", 1)]) [("skipped", 1)],
            st.unique_files⟩) := rfl
      rw [hstep]
      have hd : datasetUniqueFiles rse FilesResult.otherError o = [] := rfl
      rw [hd, appendFiles_nil]
      refine ⟨rfl, rfl, ?_⟩
      rw [update_stats_single, update_stats_single, dget?_dsetAdd_ne _ _ _ _ (by decide),
        dget?_dsetAdd_ne _ _ _ _ (by decide), List.length_nil, map_add_zero_int]

/-- The counter/registry invariant is preserved along any sequential run. -/
theorem run_datasets_inv (rse : String) (jobs : List (FilesResult × (Nat → ReplicasResult))) :
    ∀ (st : CheckerState),
    dget? st.stats "unique_files_found" = some ((registrySize st.unique_files : Nat) : Int) →
    dget? (run_datasets rse jobs st).stats "unique_files_found" =
      some ((registrySize (run_datasets rse jobs st).unique_files : Nat) : Int) := by
  induction jobs with
  | nil => intro st h; exact h
  | cons job rest ih =>
      intro st h
      have hrun : run_datasets rse (job :: rest) st =
          run_datasets rse rest (process_dataset rse job.1 job.2 st).2 := rfl
      rw [hrun]
      apply ih
      obtain ⟨hreg, -, hstat⟩ := process_dataset_unique_spec rse job.1 job.2 st
      rw [hstat, h, hreg, registrySize_appendFiles]
      simp only [Option.map_some']
      congr 1

/-- Claim C2: processing any dataset appends to the registry exactly the
files whose replica record was present and judged unique (the
`datasetUniqueFiles`), the unique count added for the dataset equals the
number of registry insertions made for it, and over any sequential run from
the initial state the final `unique_files_found` equals the total number of
registry entries. -/
theorem claim_C2 (rse : String) (filesRes : FilesResult) (o : Nat → ReplicasResult)
    (st : CheckerState) :
    ((process_dataset rse filesRes o st).2.unique_files =
       appendFiles st.unique_files (datasetUniqueFiles rse filesRes o) ∧
     (process_dataset rse filesRes o st).1.2 =
       (datasetUniqueFiles rse filesRes o).length ∧
     dget? (process_dataset rse filesRes o st).2.stats "unique_files_found" =
       (dget? st.stats "unique_files_found").map
         (fun x => x + ((datasetUniqueFiles rse filesRes o).length : Int))) ∧
    (∀ jobs : List (FilesResult × (Nat → ReplicasResult)),
      dget? (run_datasets rse jobs ⟨init_stats, []⟩).stats "unique_files_found" =
        some ((registrySize (run_datasets rse jobs ⟨init_stats, []⟩).unique_files : Nat) :
          Int)) :=
  ⟨process_dataset_unique_spec rse filesRes o st,
   fun jobs => run_datasets_inv rse jobs ⟨init_stats, []⟩ (by decide)⟩

/-- Claim C3 counterexample: a dataset whose file listing raises
`DataIdentifierNotFound` does change the errors counter — it is incremented
from 0 to 1 — contrary to the claim that such a dataset leaves `errors`
untouched. -/
theorem claim_C3_counterexample :
    dget? (process_dataset "X" FilesResult.datasetNotFound
        (fun _ => ReplicasResult.ok []) ⟨init_stats, []⟩).2.stats "errors" ≠
      dget? init_stats "errors" := by decide

/-- Claim C3 (amended): a dataset whose file listing returns an empty list
records exactly one skipped event, returns `(0, 0)`, contributes nothing to
the registry and leaves every other counter — `errors` included —
unchanged; a dataset whose listing raises `DataIdentifierNotFound` is also
recorded as one skipped event and returns `(0, 0)`, but additionally
increments `errors` by exactly one. -/
theorem claim_C3 (rse : String) (o : Nat → ReplicasResult) (st : CheckerState) :
    ((process_dataset rse (FilesResult.ok []) o st).1 = (0, 0) ∧
     (process_dataset rse (FilesResult.ok []) o st).2.unique_files = st.unique_files ∧
     dget? (process_dataset rse (FilesResult.ok []) o st).2.stats "skipped" =
       (dget? st.stats "skipped").map (fun x => x + 1) ∧
     (∀ k, k ≠ "skipped" →
        dget? (process_dataset rse (FilesResult.ok []) o st).2.stats k =
          dget? st.stats k)) ∧
    ((process_dataset rse FilesResult.datasetNotFound o st).1 = (0, 0) ∧
     (process_dataset rse FilesResult.datasetNotFound o st).2.unique_files =
       st.unique_files ∧
     dget? (process_dataset rse FilesResult.datasetNotFound o st).2.stats "skipped" =
       (dget? st.stats "skipped").map (fun x => x + 1) ∧
     dget? (process_dataset rse FilesResult.datasetNotFound o st).2.stats "errors" =
       (dget? st.stats "errors").map (fun x => x + 1) ∧
     (∀ k, k ≠ "skipped" → k ≠ "errors" →
        dget? (process_dataset rse FilesResult.datasetNotFound o st).2.stats k =
          dget? st.stats k)) := by
  rw [process_dataset_empty, process_dataset_notFound]
  refine ⟨⟨rfl, rfl, ?_, ?_⟩, rfl, rfl, ?_, ?_, ?_⟩
  · rw [update_stats_single, dget?_dsetAdd_self]
  · intro k hk
    rw [update_stats_single, dget?_dsetAdd_ne _ _ _ _ (Ne.symm hk)]
  · rw [update_stats_single, update_stats_single, dget?_dsetAdd_self,
      dget?_dsetAdd_ne _ _ _ _ (by decide)]
  · rw [update_stats_single, update_stats_single,
      dget?_dsetAdd_ne _ _ _ _ (by decide), dget?_dsetAdd_self]
  · intro k h1 h2
    rw [update_stats_single, update_stats_single,
      dget?_dsetAdd_ne _ _ _ _ (Ne.symm h1), dget?_dsetAdd_ne _ _ _ _ (Ne.symm h2)]

/-- Claim C10 counterexample: for a dataset whose file listing is empty,
`datasets_processed` is not incremented — the code takes the skip path and
returns before the final statistics update — contradicting the claim that
every processed dataset increments `datasets_processed` by exactly one. -/
theorem claim_C10_counterexample :
    dget? (process_dataset "X" (FilesResult.ok []) (fun _ => ReplicasResult.ok [])
        ⟨init_stats, []⟩).2.stats "datasets_processed" ≠
      (dget? init_stats "datasets_processed").map (fun x => x + 1) := by decide

/-- Claim C10 (amended): for every dataset with a non-empty file listing,
`process_dataset` returns `(files_checked, unique_files_found)` with
`unique_files_found ≤ files_checked ≤ number of listed files`, adds exactly
these amounts to the matching global counters and increments
`datasets_processed` by exactly one; for an empty listing it returns
`(0, 0)` and leaves `datasets_processed` unchanged. -/
theorem claim_C10 (rse : String) (files : List FileDid) (o : Nat → ReplicasResult)
    (st : CheckerState) (hne : files ≠ []) :
    ((process_dataset rse (FilesResult.ok files) o st).1.2 ≤
       (process_dataset rse (FilesResult.ok files) o st).1.1 ∧
     (process_dataset rse (FilesResult.ok files) o st).1.1 ≤ files.length ∧
     dget? (process_dataset rse (FilesResult.ok files) o st).2.stats "files_checked" =
       (dget? st.stats "files_checked").map
         (fun x => x + ((process_dataset rse (FilesResult.ok files) o st).1.1 : Int)) ∧
     dget? (process_dataset rse (FilesResult.ok files) o st).2.stats
         "unique_files_found" =
       (dget? st.stats "unique_files_found").map
         (fun x => x + ((process_dataset rse (FilesResult.ok files) o st).1.2 : Int)) ∧
     dget? (process_dataset rse (FilesResult.ok files) o st).2.stats
         "datasets_processed" =
       (dget? st.stats "datasets_processed").map (fun x => x + 1)) ∧
    ((process_dataset rse (FilesResult.ok []) o st).1 = (0, 0) ∧
     dget? (process_dataset rse (FilesResult.ok []) o st).2.stats "datasets_processed" =
       dget? st.stats "datasets_processed") := by
  rw [process_dataset_nonempty rse files o st hne, process_dataset_empty]
  refine ⟨⟨?_, ?_, ?_, ?_, ?_⟩, rfl, ?_⟩
  · exact length_allUniqueFiles_le rse o (chunksOf 100 files) 0
  · show totalChecked o 0 (chunksOf 100 files) ≤ files.length
    have h1 := totalChecked_le_sum o (chunksOf 100 files) 0
    have h2 : ((chunksOf 100 files).map List.length).sum = files.length := by
      rw [← List.length_flatten, join_chunksOf 100 (by omega) files]
    omega
  · rw [final_stats_eq, dget?_dsetAdd_ne _ _ _ _ (by decide), dget?_dsetAdd_self,
      dget?_dsetAdd_ne _ _ _ _ (by decide), dget?_dsetAdd_ne _ _ _ _ (by decide)]
  · rw [final_stats_eq, dget?_dsetAdd_self, dget?_dsetAdd_ne _ _ _ _ (by decide),
      dget?_dsetAdd_ne _ _ _ _ (by decide), dget?_dsetAdd_ne _ _ _ _ (by decide)]
  · rw [final_stats_eq, dget?_dsetAdd_ne _ _ _ _ (by decide),
      dget?_dsetAdd_ne _ _ _ _ (by decide), dget?_dsetAdd_self,
      dget?_dsetAdd_ne _ _ _ _ (by decide)]
  · rw [update_stats_single, dget?_dsetAdd_ne _ _ _ _ (by decide)]

/-- Claim C10 witness: a one-file dataset whose replica lookup answers with
an empty record set is processed with `0 ≤ 0 ≤ 1`, the counters move by the
returned amounts, and the empty listing leaves `datasets_processed`
alone. -/
theorem claim_C10_witness :
    (([⟨"s", "f"⟩] : List FileDid) ≠ [] ∧
     (((process_dataset "X" (FilesResult.ok [⟨"s", "f"⟩])
          (fun _ => ReplicasResult.ok []) ⟨init_stats, []⟩).1.2 ≤
        (process_dataset "X" (FilesResult.ok [⟨"s", "f"⟩])
          (fun _ => ReplicasResult.ok []) ⟨init_stats, []⟩).1.1 ∧
      (process_dataset "X" (FilesResult.ok [⟨"s", "f"⟩])
          (fun _ => ReplicasResult.ok []) ⟨init_stats, []⟩).1.1 ≤
        ([⟨"s", "f"⟩] : List FileDid).length ∧
      dget? (process_dataset "X" (FilesResult.ok [⟨"s", "f"⟩])
          (fun _ => ReplicasResult.ok []) ⟨init_stats, []⟩).2.stats "files_checked" =
        (dget? init_stats "files_checked").map
          (fun x => x + ((process_dataset "X" (FilesResult.ok [⟨"s", "f"⟩])
            (fun _ => ReplicasResult.ok []) ⟨init_stats, []⟩).1.1 : Int)) ∧
      dget? (process_dataset "X" (FilesResult.ok [⟨"s", "f"⟩])
          (fun _ => ReplicasResult.ok []) ⟨init_stats, []⟩).2.stats
          "unique_files_found" =
        (dget? init_stats "unique_files_found").map
          (fun x => x + ((process_dataset "X" (FilesResult.ok [⟨"s", "f"⟩])
            (fun _ => ReplicasResult.ok []) ⟨init_stats, []⟩).1.2 : Int)) ∧
      dget? (process_dataset "X" (FilesResult.ok [⟨"s", "f"⟩])
          (fun _ => ReplicasResult.ok []) ⟨init_stats, []⟩).2.stats
          "datasets_processed" =
        (dget? init_stats "datasets_processed").map (fun x => x + 1)) ∧
     ((process_dataset "X" (FilesResult.ok [])
          (fun _ => ReplicasResult.ok []) ⟨init_stats, []⟩).1 = (0, 0) ∧
      dget? (process_dataset "X" (FilesResult.ok [])
          (fun _ => ReplicasResult.ok []) ⟨init_stats, []⟩).2.stats
          "datasets_processed" =
        dget? init_stats "datasets_processed"))) :=
  ⟨by decide,
   claim_C10 "X" [⟨"s", "f"⟩] (fun _ => ReplicasResult.ok []) ⟨init_stats, []⟩ (by decide)⟩

/-- When every batch except possibly the one at absolute index `k` succeeds,
the total error count collapses to the failing batch's contribution. -/
theorem totalErrors_single (o : Nat → ReplicasResult) (k : Nat)
    (hok : ∀ j, j ≠ k → ∀ b : List FileDid, batchErrors (o j) b = 0) :
    ∀ (bs : List (List FileDid)) (i : Nat),
    totalErrors o i bs =
      if i ≤ k ∧ k < i + bs.length then batchErrors (o k) (bs.getD (k - i) []) else 0 := by
  intro bs
  induction bs with
  | nil =>
      intro i
      have hc : ¬(i ≤ k ∧ k < i + ([] : List (List FileDid)).length) := by
        simp only [List.length_nil]
        omega
      rw [if_neg hc]
      rfl
  | cons b rest ih =>
      intro i
      show batchErrors (o i) b + totalErrors o (i + 1) rest = _
      rw [ih (i + 1)]
      by_cases hik : i = k
      · subst hik
        have hc1 : ¬(i + 1 ≤ i ∧ i < i + 1 + rest.length) := by omega
        have hc2 : i ≤ i ∧ i < i + (b :: rest).length := by
          simp only [List.length_cons]
          omega
        rw [if_neg hc1, if_pos hc2]
        have hk0 : i - i = 0 := by omega
        rw [hk0]
        show batchErrors (o i) b + 0 = batchErrors (o i) ((b :: rest).getD 0 [])
        rfl
      · have h0 : batchErrors (o i) b = 0 := hok i hik b
        rw [h0]
        by_cases hin : i + 1 ≤ k ∧ k < i + 1 + rest.length
        · have hc2 : i ≤ k ∧ k < i + (b :: rest).length := by
            simp only [List.length_cons]
            omega
          rw [if_pos hin, if_pos hc2]
          have hki : k - i = (k - (i + 1)) + 1 := by omega
          rw [hki]
          show 0 + batchErrors (o k) (rest.getD (k - (i + 1)) []) =
            batchErrors (o k) ((b :: rest).getD ((k - (i + 1)) + 1) [])
          rw [Nat.zero_add]
          rfl
        · have hc2 : ¬(i ≤ k ∧ k < i + (b :: rest).length) := by
            simp only [List.length_cons]
            omega
          rw [if_neg hin, if_neg hc2]

/-- Claim C6: when the replica lookup of exactly one batch (absolute index
`k`) fails with a catalog error and every other batch succeeds, the errors
counter is incremented by exactly the length of that batch's DID list, the
failing batch contributes no checked and no unique files and nothing to the
registry, the `skipped` counter is untouched, and the returned totals and
the registry are the per-batch composition in which every other batch
contributes its normal result. -/
theorem claim_C6 (rse : String) (files : List FileDid) (o : Nat → ReplicasResult)
    (st : CheckerState) (k : Nat)
    (hfail : o k = ReplicasResult.rucioError)
    (hk : k < (chunksOf 100 files).length)
    (honly : ∀ j, j ≠ k → ∃ rs, o j = ReplicasResult.ok rs) :
    dget? (process_dataset rse (FilesResult.ok files) o st).2.stats "errors" =
      (dget? st.stats "errors").map
        (fun x => x + (((chunksOf 100 files).getD k []).length : Int)) ∧
    dget? (process_dataset rse (FilesResult.ok files) o st).2.stats "skipped" =
      dget? st.stats "skipped" ∧
    (process_dataset rse (FilesResult.ok files) o st).1.1 =
      totalChecked o 0 (chunksOf 100 files) ∧
    batchChecked (o k) ((chunksOf 100 files).getD k []) = 0 ∧
    (process_dataset rse (FilesResult.ok files) o st).2.unique_files =
      appendFiles st.unique_files (allUniqueFiles rse o 0 (chunksOf 100 files)) ∧
    batchUniqueFiles rse (o k) ((chunksOf 100 files).getD k []) = [] := by
  have hne : files ≠ [] := by
    intro h
    subst h
    simp [chunksOf, chunksGo] at hk
  rw [process_dataset_nonempty rse files o st hne]
  have hok0 : ∀ j, j ≠ k → ∀ b : List FileDid, batchErrors (o j) b = 0 := by
    intro j hj b
    obtain ⟨rs, hrs⟩ := honly j hj
    rw [hrs]
    rfl
  have hTE : totalErrors o 0 (chunksOf 100 files) =
      ((chunksOf 100 files).getD k []).length := by
    rw [totalErrors_single o k hok0 (chunksOf 100 files) 0]
    rw [if_pos ⟨Nat.zero_le k, by omega⟩]
    have hk0 : k - 0 = k := by omega
    rw [hk0, hfail]
    rfl
  refine ⟨?_, ?_, rfl, ?_, rfl, ?_⟩
  · rw [final_stats_eq, dget?_dsetAdd_ne _ _ _ _ (by decide),
      dget?_dsetAdd_ne _ _ _ _ (by decide), dget?_dsetAdd_ne _ _ _ _ (by decide),
      dget?_dsetAdd_self, hTE]
  · rw [final_stats_eq, dget?_dsetAdd_ne _ _ _ _ (by decide),
      dget?_dsetAdd_ne _ _ _ _ (by decide), dget?_dsetAdd_ne _ _ _ _ (by decide),
      dget?_dsetAdd_ne _ _ _ _ (by decide)]
  · rw [hfail]
    exact checkedInBatch_nil_dict _
  · rw [hfail]
    exact uniqueInBatch_nil_dict rse _

/-- An oracle whose batch 0 fails with a catalog error and whose other
batches succeed with no records. -/
def c6oracle : Nat → ReplicasResult :=
  fun i => if i = 0 then ReplicasResult.rucioError else ReplicasResult.ok []

/-- Claim C6 witness: a one-file dataset whose single batch fails: errors
moves by the batch length 1, nothing is checked, found unique or skipped. -/
theorem claim_C6_witness :
    (c6oracle 0 = ReplicasResult.rucioError ∧
     0 < (chunksOf 100 ([⟨"s", "f1"⟩] : List FileDid)).length ∧
     (∀ j, j ≠ 0 → ∃ rs, c6oracle j = ReplicasResult.ok rs)) ∧
    (dget? (process_dataset "X" (FilesResult.ok [⟨"s", "f1"⟩]) c6oracle
        ⟨init_stats, []⟩).2.stats "errors" =
      (dget? init_stats "errors").map
        (fun x => x +
          (((chunksOf 100 ([⟨"s", "f1"⟩] : List FileDid)).getD 0 []).length : Int)) ∧
     dget? (process_dataset "X" (FilesResult.ok [⟨"s", "f1"⟩]) c6oracle
        ⟨init_stats, []⟩).2.stats "skipped" = dget? init_stats "skipped" ∧
     (process_dataset "X" (FilesResult.ok [⟨"s", "f1"⟩]) c6oracle
        ⟨init_stats, []⟩).1.1 =
       totalChecked c6oracle 0 (chunksOf 100 ([⟨"s", "f1"⟩] : List FileDid)) ∧
     batchChecked (c6oracle 0)
       ((chunksOf 100 ([⟨"s", "f1"⟩] : List FileDid)).getD 0 []) = 0 ∧
     (process_dataset "X" (FilesResult.ok [⟨"s", "f1"⟩]) c6oracle
        ⟨init_stats, []⟩).2.unique_files =
       appendFiles []
         (allUniqueFiles "X" c6oracle 0 (chunksOf 100 ([⟨"s", "f1"⟩] : List FileDid))) ∧
     batchUniqueFiles "X" (c6oracle 0)
       ((chunksOf 100 ([⟨"s", "f1"⟩] : List FileDid)).getD 0 []) = []) :=
  ⟨⟨rfl, by decide, fun j hj => ⟨[], if_neg hj⟩⟩,
   claim_C6 "X" [⟨"s", "f1"⟩] c6oracle ⟨init_stats, []⟩ 0 rfl (by decide)
     (fun j hj => ⟨[], if_neg hj⟩)⟩

/-! ## The flattened CSV report and its round trip -/

/-- The newline character of the CSV rows. -/
def newlineChar : Char := Char.ofNat 10

/-- The comma separating scope from name in a CSV row. -/
def commaChar : Char := Char.ofNat 44

/-- Lexicographic comparison of character lists by code point — the string
order Python `sorted` applies. -/
def charListLe : List Char → List Char → Bool
  | [], _ => true
  | _ :: _, [] => false
  | a :: as, b :: bs =>
      if a.toNat < b.toNat then true
      else if b.toNat < a.toNat then false
      else charListLe as bs

/-- The string order used by Python `sorted` on names. -/
def nameLe (a b : String) : Bool := charListLe a.toList b.toList

/-- The order used by Python `sorted` on `unique_files.items()` (the scope
keys are distinct, so items compare by scope). -/
def scopeLe (a b : String × List String) : Bool := charListLe a.1.toList b.1.toList

/-- Insert into a sorted list — one step of the sort used to model Python
`sorted`. -/
def insertSorted {α : Type u} (le : α → α → Bool) (x : α) : List α → List α
  | [] => [x]
  | y :: ys => if le x y then x :: y :: ys else y :: insertSorted le x ys

/-- Insertion sort modelling Python `sorted`. -/
def sortBy {α : Type u} (le : α → α → Bool) : List α → List α
  | [] => []
  | x :: xs => insertSorted le x (sortBy le xs)

/-- The inner loop of the CSV writer: one `f"{scope},{name}\n"` row per
name. -/
def csvNameLines (scope : String) : List String → String
  | [] => ""
  | n :: ns => scope ++ "," ++ n ++ "\n" ++ csvNameLines scope ns

/-- The outer loop of the CSV writer over the sorted scopes. -/
def csvScopeLines : List (String × List String) → String
  | [] => ""
  | p :: ps => csvNameLines p.1 (sortBy nameLe p.2) ++ csvScopeLines ps

/-- The CSV file written by `save_results`: the `scope,name` header, then
one row per (sorted scope, sorted name) pair of the registry. -/
def save_results_csv (unique_files : List (String × List String)) : String :=
  "scope,name\n" ++ csvScopeLines (sortBy scopeLe unique_files)

/-- Split a character list at every occurrence of `c` (Python
`str.split`). -/
def splitOnChar (c : Char) : List Char → List (List Char)
  | [] => [[]]
  | x :: xs =>
      match splitOnChar c xs with
      | [] => if x = c then [[], []] else [[x]]
      | h :: t => if x = c then [] :: h :: t else (x :: h) :: t

/-- Split a character list at the first occurrence of `c`, if any. -/
def splitFirst (c : Char) : List Char → Option (List Char × List Char)
  | [] => none
  | x :: xs =>
      if x = c then some ([], xs)
      else
        match splitFirst c xs with
        | none => none
        | some p => some (x :: p.1, p.2)

/-- Modelled from the spec: the repository writes the flattened CSV report
but contains no parser, so the spec's round-trip property is read as parsing
each post-header row into one `(scope, name)` pair at its first comma,
skipping empty lines. -/
def rowParse (line : List Char) : Option (String × String) :=
  if line = [] then none
  else
    match splitFirst commaChar line with
    | none => none
    | some p => some (String.mk p.1, String.mk p.2)

/-- Modelled from the spec: parse the flattened CSV report back into its
`(scope, name)` pairs — drop the header line, then read every non-empty
row. -/
def parseCsv (s : String) : List (String × String) :=
  ((splitOnChar newlineChar s.toList).drop 1).filterMap rowParse

/-- The `(scope, name)` pairs of the structured report's registry. -/
def regPairs (reg : List (String × List String)) : List (String × String) :=
  (reg.map (fun p => p.2.map (fun n => (p.1, n)))).flatten

example : parseCsv (save_results_csv [("s1", ["b", "a"]), ("s0", ["c"])]) =
    [("s0", "c"), ("s1", "a"), ("s1", "b")] := by decide

example : parseCsv (save_results_csv [("a,b", ["n"])]) = [("a", "b,n")] := by decide

theorem mem_insertSorted {α : Type u} (le : α → α → Bool) (x a : α) :
    ∀ (l : List α), a ∈ insertSorted le x l ↔ a = x ∨ a ∈ l := by
  intro l
  induction l with
  | nil => simp [insertSorted]
  | cons y ys ih =>
      simp only [insertSorted]
      by_cases hle : le x y
      · simp [hle]
      · simp only [hle, Bool.false_eq_true, if_false, List.mem_cons, ih]
        tauto

theorem mem_sortBy {α : Type u} (le : α → α → Bool) (a : α) :
    ∀ (l : List α), a ∈ sortBy le l ↔ a ∈ l := by
  intro l
  induction l with
  | nil => simp [sortBy]
  | cons x xs ih =>
      simp only [sortBy]
      rw [mem_insertSorted]
      simp [ih]

theorem splitFirst_append (c : Char) :
    ∀ (a b : List Char), (∀ ch ∈ a, ch ≠ c) →
    splitFirst c (a ++ c :: b) = some (a, b) := by
  intro a
  induction a with
  | nil =>
      intro b h
      show splitFirst c (c :: b) = some ([], b)
      simp [splitFirst]
  | cons x xs ih =>
      intro b h
      have hx : x ≠ c := h x (List.mem_cons_self x xs)
      show splitFirst c (x :: (xs ++ c :: b)) = some (x :: xs, b)
      simp only [splitFirst, if_neg hx,
        ih b (fun ch hch => h ch (List.mem_cons_of_mem x hch))]

theorem splitOnChar_ne_nil (c : Char) : ∀ (l : List Char), splitOnChar c l ≠ [] := by
  intro l
  cases l with
  | nil => simp [splitOnChar]
  | cons x xs =>
      simp only [splitOnChar]
      cases splitOnChar c xs with
      | nil => by_cases hx : x = c <;> simp [hx]
      | cons h t => by_cases hx : x = c <;> simp [hx]

theorem splitOnChar_append (c : Char) :
    ∀ (a b : List Char), (∀ ch ∈ a, ch ≠ c) →
    splitOnChar c (a ++ c :: b) = a :: splitOnChar c b := by
  intro a
  induction a with
  | nil =>
      intro b h
      show splitOnChar c (c :: b) = [] :: splitOnChar c b
      simp only [splitOnChar]
      cases hs : splitOnChar c b with
      | nil => exact absurd hs (splitOnChar_ne_nil c b)
      | cons hd t => simp
  | cons x xs ih =>
      intro b h
      have hx : x ≠ c := h x (List.mem_cons_self x xs)
      show splitOnChar c (x :: (xs ++ c :: b)) = (x :: xs) :: splitOnChar c b
      simp only [splitOnChar]
      rw [ih b (fun ch hch => h ch (List.mem_cons_of_mem x hch))]
      simp [hx]

theorem data_comma : ("," : String).data = [commaChar] := by decide

theorem data_newline : ("\n" : String).data = [newlineChar] := by decide

theorem data_header :
    ("scope,name\n" : String).data = "scope,name".data ++ [newlineChar] := by decide

theorem header_no_newline : ∀ ch ∈ ("scope,name" : String).data, ch ≠ newlineChar := by
  decide

/-- Parsing the rows of one scope, followed by arbitrary further content:
each row contributes its `(scope, name)` pair. -/
theorem parse_nameLines (sc : String) (hscc : commaChar ∉ sc.data)
    (hscn : newlineChar ∉ sc.data) :
    ∀ (ns : List String), (∀ n ∈ ns, newlineChar ∉ n.data) →
    ∀ (t : List Char),
    (splitOnChar newlineChar ((csvNameLines sc ns).data ++ t)).filterMap rowParse =
      ns.map (fun n => (sc, n)) ++ (splitOnChar newlineChar t).filterMap rowParse := by
  intro ns
  induction ns with
  | nil =>
      intro h t
      show (splitOnChar newlineChar (("" : String).data ++ t)).filterMap rowParse = _
      simp
  | cons n ns ih =>
      intro h t
      have hn : newlineChar ∉ n.data := h n (List.mem_cons_self n ns)
      have hline : ((csvNameLines sc (n :: ns)).data ++ t) =
          (sc.data ++ commaChar :: n.data) ++
            newlineChar :: ((csvNameLines sc ns).data ++ t) := by
        show ((sc ++ "," ++ n ++ "\n" ++ csvNameLines sc ns) : String).data ++ t = _
        simp [String.data_append, List.append_assoc]
        exact ⟨by decide, by decide⟩
      have hpre : ∀ ch ∈ sc.data ++ commaChar :: n.data, ch ≠ newlineChar := by
        intro ch hch
        rcases List.mem_append.mp hch with hch | hch
        · exact fun he => hscn (he ▸ hch)
        · rcases List.mem_cons.mp hch with hch | hch
          · subst hch
            decide
          · exact fun he => hn (he ▸ hch)
      have hrow : rowParse (sc.data ++ commaChar :: n.data) = some (sc, n) := by
        unfold rowParse
        rw [if_neg (by simp)]
        rw [splitFirst_append commaChar sc.data n.data
          (fun ch hch he => hscc (he ▸ hch))]
      rw [hline, splitOnChar_append _ _ _ hpre]
      simp only [List.filterMap_cons, hrow]
      rw [ih (fun m hm => h m (List.mem_cons_of_mem n hm)) t]
      rfl

/-- Parsing the full body of the CSV: the pairs of every scope block, in
order. -/
theorem parse_scopeLines :
    ∀ (ps : List (String × List String)),
    (∀ p ∈ ps, (commaChar ∉ p.1.data ∧ newlineChar ∉ p.1.data) ∧
       ∀ n ∈ p.2, newlineChar ∉ n.data) →
    (splitOnChar newlineChar (csvScopeLines ps).data).filterMap rowParse =
      (ps.map (fun p => (sortBy nameLe p.2).map (fun n => (p.1, n)))).flatten := by
  intro ps
  induction ps with
  | nil =>
      intro h
      rfl
  | cons p ps ih =>
      intro h
      obtain ⟨⟨hpc, hpn⟩, hnames⟩ := h p (List.mem_cons_self p ps)
      show (splitOnChar newlineChar
          ((csvNameLines p.1 (sortBy nameLe p.2) ++ csvScopeLines ps) : String).data
        ).filterMap rowParse = _
      rw [String.data_append]
      rw [parse_nameLines p.1 hpc hpn (sortBy nameLe p.2)
        (fun n hn => hnames n ((mem_sortBy nameLe n p.2).mp hn))
        (csvScopeLines ps).data]
      rw [ih (fun q hq => h q (List.mem_cons_of_mem p hq))]
      rfl

/-- The write-then-parse composition, as a list: the sorted pairs of the
registry. -/
theorem parseCsv_save (reg : List (String × List String))
    (h : ∀ p ∈ reg, (commaChar ∉ p.1.data ∧ newlineChar ∉ p.1.data) ∧
       ∀ n ∈ p.2, newlineChar ∉ n.data) :
    parseCsv (save_results_csv reg) =
      ((sortBy scopeLe reg).map
        (fun p => (sortBy nameLe p.2).map (fun n => (p.1, n)))).flatten := by
  unfold parseCsv save_results_csv
  have hdata : (("scope,name\n" ++ csvScopeLines (sortBy scopeLe reg)) : String).toList =
      "scope,name".data ++
        newlineChar :: (csvScopeLines (sortBy scopeLe reg)).data := by
    show (("scope,name\n" ++ csvScopeLines (sortBy scopeLe reg)) : String).data = _
    rw [String.data_append, data_header, List.append_assoc]
    rfl
  rw [hdata, splitOnChar_append _ _ _ header_no_newline]
  rw [List.drop_one, List.tail_cons]
  exact parse_scopeLines (sortBy scopeLe reg)
    (fun q hq => h q ((mem_sortBy scopeLe q reg).mp hq))

/-- Claim C7 counterexample: a registry whose scope contains a comma breaks
the round trip — the row `a,b,n` parses back as `("a", "b,n")`, not
`("a,b", "n")` — so the write-then-parse round trip does not reproduce the
registry's pair set for every registry. -/
theorem claim_C7_counterexample :
    (parseCsv (save_results_csv [("a,b", ["n"])])).toFinset ≠
      (regPairs [("a,b", ["n"])]).toFinset := by decide

/-- Claim C7 (amended): provided every scope contains neither a comma nor a
newline and every file name contains no newline, parsing the flattened CSV
report yields exactly the set of `(scope, name)` pairs present in the
structured report's registry — nothing is lost and nothing is invented. -/
theorem claim_C7 (reg : List (String × List String))
    (h : ∀ p ∈ reg, (commaChar ∉ p.1.data ∧ newlineChar ∉ p.1.data) ∧
       ∀ n ∈ p.2, newlineChar ∉ n.data) :
    (parseCsv (save_results_csv reg)).toFinset = (regPairs reg).toFinset := by
  rw [parseCsv_save reg h]
  apply Finset.ext
  intro pr
  simp only [List.mem_toFinset, regPairs, List.mem_flatten, List.mem_map]
  constructor
  · rintro ⟨l, ⟨p, hp, rfl⟩, hpr⟩
    obtain ⟨n, hn, rfl⟩ := List.mem_map.mp hpr
    exact ⟨p.2.map (fun n => (p.1, n)), ⟨p, (mem_sortBy scopeLe p reg).mp hp, rfl⟩,
      List.mem_map_of_mem _ ((mem_sortBy nameLe n p.2).mp hn)⟩
  · rintro ⟨l, ⟨p, hp, rfl⟩, hpr⟩
    obtain ⟨n, hn, rfl⟩ := List.mem_map.mp hpr
    exact ⟨(sortBy nameLe p.2).map (fun n => (p.1, n)),
      ⟨p, (mem_sortBy scopeLe p reg).mpr hp, rfl⟩,
      List.mem_map_of_mem _ ((mem_sortBy nameLe n p.2).mpr hn)⟩

/-- Claim C7 witness: a two-scope registry with unexceptional characters
round-trips to exactly its pair set. -/
theorem claim_C7_witness :
    ((∀ p ∈ ([("s1", ["b", "a"]), ("s0", ["c"])] : List (String × List String)),
        (commaChar ∉ p.1.data ∧ newlineChar ∉ p.1.data) ∧
        ∀ n ∈ p.2, newlineChar ∉ n.data) ∧
     (parseCsv (save_results_csv [("s1", ["b", "a"]), ("s0", ["c"])])).toFinset =
       (regPairs [("s1", ["b", "a"]), ("s0", ["c"])]).toFinset) :=
  ⟨by decide, claim_C7 [("s1", ["b", "a"]), ("s0", ["c"])] (by decide)⟩

end CheckUniqueReplicas
